import Mathlib

/-!
Shallow embedding of `ctfsite/leaderboard/models.py` (a Django CTF
leaderboard).  The database is modelled as explicit lists of rows; each
Django model method becomes a Lean function over a `DB` state.  Fallible
operations (those that can raise `ValueError` or hit a database
constraint) return `Except DbError`.
-/

namespace Leaderboard

/-- `MAX_MEMBERS_PER_TEAM = 4` from models.py. -/
def MAX_MEMBERS_PER_TEAM : Nat := 4

/-- A row of the `Team` table: primary key and `name`
(`created_at` carries no behaviour and is omitted). -/
structure Team where
  id : Nat
  name : String
deriving Repr, DecidableEq

/-- A row of the `Level` table: `name` (unique) and `answer`, which stores
the hex digest of the level answer (callers store `encoded(answer)`). -/
structure Lvl where
  name : String
  answer : String
deriving Repr, DecidableEq

/-- The database state.  `members` holds `TeamMember` rows as
(team id, user id) pairs; `levels` is kept in creation (primary-key)
order, which is the order `Level.objects.all()` enumerates; `submissions`
holds `Submission` rows as (team id, level name) pairs (level names are
unique, so they serve as the foreign key). -/
structure DB where
  teams : List Team
  members : List (Nat × Nat)
  levels : List Lvl
  submissions : List (Nat × String)
deriving Repr, DecidableEq

/-- Errors surfaced by the operations: `valueError` models Python
`ValueError` with its message, `integrityError` models a database
constraint violation, carrying the violated constraint's name;
`multipleObjects` models Django's `MultipleObjectsReturned`. -/
inductive DbError where
  | valueError (msg : String)
  | integrityError (constraint : String)
  | multipleObjects
deriving Repr, DecidableEq

/-- A single-quote character, used in the capacity error message. -/
def squote : String := String.mk [Char.ofNat 39]

/-- `TeamMember.objects.filter(team=self).count()`. -/
def memberCount (db : DB) (t : Team) : Nat :=
  (db.members.filter (fun r => r.1 == t.id)).length

/-- `Team.is_accepting_members`. -/
def is_accepting_members (db : DB) (t : Team) : Bool :=
  memberCount db t < MAX_MEMBERS_PER_TEAM

/-- `Team.is_empty`. -/
def is_empty (db : DB) (t : Team) : Bool :=
  memberCount db t == 0

/-- Whether `user` already has a `TeamMember` row on any team: the
`uk_user` unique constraint on `TeamMember.user` rejects the insert
exactly when this holds. -/
def userHasTeam (db : DB) (u : Nat) : Bool :=
  db.members.any (fun r => r.2 == u)

/-- The `ValueError` message of `Team.add_member` when the team is full:
`f"Team '{self.name}' is not accepting members"`. -/
def capacityMsg (nm : String) : String :=
  "Team " ++ squote ++ nm ++ squote ++ " is not accepting members"

/-- `Team.add_member`: raises the capacity `ValueError` when the team is
not accepting members; otherwise `TeamMember.objects.create` inserts the
row, which the database rejects with an `IntegrityError` on `uk_user`
when the user already belongs to any team. -/
def add_member (db : DB) (t : Team) (u : Nat) : Except DbError DB :=
  if ¬ is_accepting_members db t then
    .error (.valueError (capacityMsg t.name))
  else if userHasTeam db u then
    .error (.integrityError "uk_user")
  else
    .ok { db with members := db.members ++ [(t.id, u)] }

/-- `Team.remove_member`: deletes the `TeamMember` rows matching
`(team=self, user=user)`, then, if the team is now empty, deletes the
team itself; `Team.delete` cascades to the team's `TeamMember` and
`Submission` rows (`on_delete=CASCADE`). -/
def remove_member (db : DB) (t : Team) (u : Nat) : DB :=
  let db1 : DB :=
    { db with members := db.members.filter (fun r => ¬ (r.1 == t.id ∧ r.2 == u)) }
  if is_empty db1 t then
    { teams := db1.teams.filter (fun x => ¬ x.id == t.id),
      members := db1.members.filter (fun r => ¬ r.1 == t.id),
      levels := db1.levels,
      submissions := db1.submissions.filter (fun s => ¬ s.1 == t.id) }
  else
    db1

/-- `find_team`: `TeamMember.objects.get(user=user)` returns the single
matching row's team, raises `DoesNotExist` (caught, returning `None`)
when there is none, and raises `MultipleObjectsReturned` (uncaught) when
there are several. -/
def find_team (db : DB) (u : Nat) : Except DbError (Option Nat) :=
  match db.members.filter (fun r => r.2 == u) with
  | [] => .ok none
  | [r] => .ok (some r.1)
  | _ => .error .multipleObjects

/-- `Team.next_level_index`: `Submission.objects.filter(team=self).count()`. -/
def next_level_index (db : DB) (t : Team) : Nat :=
  (db.submissions.filter (fun s => s.1 == t.id)).length

/-- `Team.next_level`: `None` when the index is past the last level,
otherwise `Level.objects.all()[next_level_index]`. -/
def next_level (db : DB) (t : Team) : Option Lvl :=
  let i := next_level_index db t
  if i ≥ db.levels.length then none
  else db.levels[i]?

/-- `Team.can_submit`: `not self.is_empty() and self.next_level() is not None`. -/
def can_submit (db : DB) (t : Team) : Bool :=
  !(is_empty db t) && (next_level db t).isSome

/-- `Level.is_correct`: `self.answer == encoded(answer_attempt)`.  The
digest function `enc` (SHA-1 hex digest in the source, via `hashlib`) is
passed as a parameter: its internals live in the Python standard
library, and no claim depends on them. -/
def is_correct (enc : String → String) (l : Lvl) (answer_attempt : String) : Bool :=
  l.answer == enc answer_attempt

/-- `Team.submit_attempt`: illegal-state `ValueError` when the team
cannot submit; returns `false` leaving the database unchanged on an
incorrect attempt; inserts a `Submission` row and returns `true` on a
correct one. -/
def submit_attempt (enc : String → String) (db : DB) (t : Team)
    (answer_attempt : String) : Except DbError (Bool × DB) :=
  if ¬ can_submit db t then
    .error (.valueError "Illegal state: team cannot submit solutions")
  else
    match next_level db t with
    | none => .error (.valueError "Illegal state: there is no next level")
    | some level =>
      if ¬ is_correct enc level answer_attempt then
        .ok (false, db)
      else
        .ok (true, { db with submissions := db.submissions ++ [(t.id, level.name)] })

/-- Modelled from the spec: creating a `Level` row.  `name` is declared
`unique=True` in models.py.  The spec declares `answer_digest` a
**unique string** and the repository's own tests
(`test_cannot_create_level_with_same_answer`) assert an `IntegrityError`
on a duplicate digest; the constraint is enforced by the persistence
layer (the schema migrations are not part of the sources here), so it is
modelled as a uniqueness check on the stored digest.  `digest` is the
already-encoded answer, as stored by every caller
(`Level.objects.create(name=..., answer=encoded(answer))`). -/
def create_level (db : DB) (nm digest : String) : Except DbError DB :=
  if db.levels.any (fun l => l.name == nm) then
    .error (.integrityError "level_name_unique")
  else if db.levels.any (fun l => l.answer == digest) then
    .error (.integrityError "level_answer_unique")
  else
    .ok { db with levels := db.levels ++ [⟨nm, digest⟩] }

/-- Replaying a whole sequence of `add_member` calls; a call that raises
leaves the database unchanged (`add_member` is atomic). -/
def addAll (db : DB) : List (Team × Nat) → DB
  | [] => db
  | (t, u) :: rest =>
    match add_member db t u with
    | .ok db' => addAll db' rest
    | .error _ => addAll db rest

/-- Replaying a whole sequence of `submit_attempt` calls for one team; a
call that raises leaves the database unchanged. -/
def submitAll (enc : String → String) (db : DB) (t : Team) : List String → DB
  | [] => db
  | a :: rest =>
    match submit_attempt enc db t a with
    | .ok (_, db') => submitAll enc db' t rest
    | .error _ => submitAll enc db t rest

/- Helper lemmas. -/

lemma filter_not_of_none_match {α : Type} (p : α → Bool) (l : List α)
    (h : (l.filter p).length = 0) : l.filter (fun a => ¬ p a) = l := by
  rw [List.length_eq_zero, List.filter_eq_nil_iff] at h
  rw [List.filter_eq_self]
  intro a ha
  simp [h a ha]

lemma mem_of_singleton_le {α : Type} {l : List α} {x : α}
    (hlen : l.length ≤ 1) (hx : x ∈ l) : l = [x] := by
  match l, hx with
  | [y], hx => simp_all
  | y :: z :: rest, hx => simp at hlen

lemma memberCount_eq_of_id {db : DB} {t t' : Team} (h : t.id = t'.id) :
    memberCount db t = memberCount db t' := by
  simp [memberCount, h]

/- Concrete fixtures used by the witnesses and counterexamples below. -/

/-- A stand-in digest function for concrete scenarios. -/
def encW : String → String := fun s => "sha1:" ++ s

/-- Team fixture. -/
def teamW : Team := ⟨0, "T"⟩

/-- Scenario B from the spec: one level with answer "flag1", one team
with a single member (user 100). -/
def dbW : DB := ⟨[teamW], [(0, 100)], [⟨"L1", encW "flag1"⟩], []⟩

/-- A full team (4 members) plus user 9 already on another team. -/
def dbFullW : DB := ⟨[teamW, ⟨1, "U"⟩], [(0, 1), (0, 2), (0, 3), (0, 4), (1, 9)], [], []⟩

/-- A team with one member and one recorded submission. -/
def dbSubW : DB := ⟨[teamW], [(0, 1)], [⟨"L1", "x"⟩], [(0, "L1")]⟩

/-- C10: in `add_member` the capacity check runs before the membership
insert, so on a full team the capacity `ValueError` (naming the team) is
raised even for a user who already belongs to some team; the
uniqueness violation is never reached. -/
theorem add_member_capacity_takes_precedence (db : DB) (t : Team) (u : Nat)
    (hfull : memberCount db t = MAX_MEMBERS_PER_TEAM)
    (hdup : userHasTeam db u = true) :
    add_member db t u = .error (.valueError (capacityMsg t.name)) := by
  simp [add_member, is_accepting_members, hfull]

/-- Witness for C10 on a concrete database: team 0 is full and user 9
already belongs to team 1. -/
theorem add_member_capacity_takes_precedence_witness :
    add_member dbFullW teamW 9 = .error (.valueError (capacityMsg "T")) :=
  add_member_capacity_takes_precedence dbFullW teamW 9 (by decide) (by decide)

/-- C9: calling `remove_member` on a team that already has zero members
deletes the team even though no `TeamMember` row was removed: the code
tests emptiness after the (vacuous) delete, not whether a row was
actually deleted.  The member table is left unchanged and the team's
row (and its submissions, by cascade) are gone. -/
theorem remove_member_on_empty_team_deletes_team (db : DB) (t : Team) (u : Nat)
    (h : memberCount db t = 0) :
    remove_member db t u =
      ⟨db.teams.filter (fun x => ¬ x.id == t.id),
       db.members,
       db.levels,
       db.submissions.filter (fun s => ¬ s.1 == t.id)⟩
    ∧ ∀ x ∈ (remove_member db t u).teams, x.id ≠ t.id := by
  have hnone : ∀ r ∈ db.members, ¬ (r.1 == t.id) = true := by
    simp only [memberCount, List.length_eq_zero, List.filter_eq_nil_iff] at h
    exact h
  have hm : db.members.filter (fun r => ¬ (r.1 == t.id ∧ r.2 == u)) = db.members := by
    rw [List.filter_eq_self]
    intro r hr
    simp [hnone r hr]
  have hm2 : db.members.filter (fun r => ¬ r.1 == t.id) = db.members := by
    rw [List.filter_eq_self]
    intro r hr
    simpa using hnone r hr
  have hrm : remove_member db t u =
      ⟨db.teams.filter (fun x => ¬ x.id == t.id),
       db.members,
       db.levels,
       db.submissions.filter (fun s => ¬ s.1 == t.id)⟩ := by
    simp only [remove_member]
    split
    · rw [hm, hm2]
    · rename_i hfalse
      rw [hm] at hfalse
      exact absurd (by simpa [is_empty, memberCount] using h) hfalse
  refine ⟨hrm, ?_⟩
  intro x hx
  rw [hrm] at hx
  simp only [List.mem_filter] at hx
  simpa using hx.2

/-- Witness for C9: removing user 5 from an empty team deletes the team. -/
theorem remove_member_on_empty_team_deletes_team_witness :
    (remove_member ⟨[teamW], [], [], []⟩ teamW 5 = ⟨[], [], [], []⟩)
    ∧ ∀ x ∈ (remove_member ⟨[teamW], [], [], []⟩ teamW 5).teams, x.id ≠ teamW.id := by
  have h := remove_member_on_empty_team_deletes_team ⟨[teamW], [], [], []⟩ teamW 5 (by decide)
  exact ⟨by rw [h.1]; decide, h.2⟩

lemma submit_attempt_eq_of_can (enc : String → String) (db : DB) (t : Team)
    (a : String) (lvl : Lvl) (hcs : can_submit db t = true)
    (hl : next_level db t = some lvl) :
    submit_attempt enc db t a =
      if ¬ is_correct enc lvl a then .ok (false, db)
      else .ok (true, { db with submissions := db.submissions ++ [(t.id, lvl.name)] }) := by
  simp only [submit_attempt, hcs, hl]
  simp

/-- C4: `submit_attempt` raises the illegal-state `ValueError` (returning
no state, hence writing nothing) exactly when `can_submit` is false;
when `can_submit` is true it returns a result.  `can_submit` is false
for every empty team (even when unsolved levels exist) and for every
team with no next level (all levels solved). -/
theorem submit_attempt_illegal_state_iff (enc : String → String) (db : DB)
    (t : Team) (a : String) :
    (can_submit db t = false ↔
      submit_attempt enc db t a =
        .error (.valueError "Illegal state: team cannot submit solutions"))
    ∧ (can_submit db t = true → ∃ b db', submit_attempt enc db t a = .ok (b, db'))
    ∧ (is_empty db t = true → can_submit db t = false)
    ∧ (next_level db t = none → can_submit db t = false) := by
  have hok : can_submit db t = true →
      ∃ b db', submit_attempt enc db t a = .ok (b, db') := by
    intro hcs
    have hl : ∃ lvl, next_level db t = some lvl := by
      have := hcs
      simp only [can_submit, Bool.and_eq_true] at this
      exact Option.isSome_iff_exists.mp this.2
    obtain ⟨lvl, hl⟩ := hl
    rw [submit_attempt_eq_of_can enc db t a lvl hcs hl]
    by_cases hc : is_correct enc lvl a = true
    · exact ⟨true, { db with submissions := db.submissions ++ [(t.id, lvl.name)] },
        by simp [hc]⟩
    · exact ⟨false, db, by simp [hc]⟩
  refine ⟨⟨?_, ?_⟩, hok, ?_, ?_⟩
  · intro h
    simp [submit_attempt, h]
  · intro h
    by_contra hne
    rw [Bool.not_eq_false] at hne
    obtain ⟨b, db', hok'⟩ := hok hne
    rw [hok'] at h
    cases h
  · intro h
    simp [can_submit, h]
  · intro h
    simp [can_submit, h]

/-- Witness for C4 at a concrete database: the team of scenario B can
submit (so `submit_attempt` returns a result), and the same team with
its member removed cannot. -/
theorem submit_attempt_illegal_state_iff_witness :
    (∃ b db', submit_attempt encW dbW teamW "x" = .ok (b, db'))
    ∧ (can_submit ⟨[teamW], [], [⟨"L1", "z"⟩], []⟩ teamW = false) :=
  ⟨(submit_attempt_illegal_state_iff encW dbW teamW "x").2.1 (by decide),
   (submit_attempt_illegal_state_iff encW ⟨[teamW], [], [⟨"L1", "z"⟩], []⟩ teamW "x").2.2.1 (by decide)⟩

/-- C5: the stored answer digest is unique system-wide.  After a level
with digest `d` is created, creating another level with a fresh name but
the same digest (the digest of the same plaintext answer is the same
string) is rejected by the persistence layer's unique-digest
constraint. -/
theorem create_level_rejects_duplicate_digest (db db' : DB) (nm1 nm2 d : String)
    (h1 : create_level db nm1 d = .ok db')
    (h2 : db'.levels.any (fun l => l.name == nm2) = false) :
    create_level db' nm2 d = .error (.integrityError "level_answer_unique") := by
  have hlv : db'.levels = db.levels ++ [⟨nm1, d⟩] := by
    simp only [create_level] at h1
    split_ifs at h1
    cases h1
    rfl
  have hany : db'.levels.any (fun l => l.answer == d) = true := by
    rw [hlv]
    simp
  simp [create_level, h2, hany]

/-- Witness for C5: create level "a" with digest "x", then level "b"
with the same digest. -/
theorem create_level_rejects_duplicate_digest_witness :
    create_level ⟨[], [], [⟨"a", "x"⟩], []⟩ "b" "x" =
      .error (.integrityError "level_answer_unique") :=
  create_level_rejects_duplicate_digest ⟨[], [], [], []⟩ ⟨[], [], [⟨"a", "x"⟩], []⟩
    "a" "b" "x" (by rfl) (by decide)

/-- C6: for a team allowed to submit, an incorrect attempt (its digest
differs from the next level's stored digest) returns `false` and leaves
the database unchanged, and replaying any number of incorrect attempts
changes neither the database nor `next_level_index` and creates no
`Submission` row. -/
theorem submit_attempt_incorrect_no_effect (enc : String → String) (db : DB)
    (t : Team) (lvl : Lvl) (attempts : List String)
    (hcs : can_submit db t = true)
    (hl : next_level db t = some lvl)
    (hinc : ∀ a ∈ attempts, is_correct enc lvl a = false) :
    (∀ a ∈ attempts, submit_attempt enc db t a = .ok (false, db))
    ∧ submitAll enc db t attempts = db
    ∧ next_level_index (submitAll enc db t attempts) t = next_level_index db t
    ∧ (submitAll enc db t attempts).submissions = db.submissions := by
  have hone : ∀ a ∈ attempts, submit_attempt enc db t a = .ok (false, db) := by
    intro a ha
    rw [submit_attempt_eq_of_can enc db t a lvl hcs hl]
    simp [hinc a ha]
  have hall : ∀ (l : List String), (∀ a ∈ l, is_correct enc lvl a = false) →
      submitAll enc db t l = db := by
    intro l
    induction l with
    | nil => intro _; rfl
    | cons a rest ih =>
      intro hl2
      have h1 : submit_attempt enc db t a = .ok (false, db) := by
        rw [submit_attempt_eq_of_can enc db t a lvl hcs hl]
        simp [hl2 a (by simp)]
      simp only [submitAll, h1]
      exact ih (fun x hx => hl2 x (by simp [hx]))
  have hfix := hall attempts hinc
  exact ⟨hone, hfix, by rw [hfix], by rw [hfix]⟩

/-- Witness for C6: two wrong attempts against scenario B leave the
database exactly as it was. -/
theorem submit_attempt_incorrect_no_effect_witness :
    (∀ a ∈ ["wrong", "also-wrong"], submit_attempt encW dbW teamW a = .ok (false, dbW))
    ∧ submitAll encW dbW teamW ["wrong", "also-wrong"] = dbW
    ∧ next_level_index (submitAll encW dbW teamW ["wrong", "also-wrong"]) teamW
        = next_level_index dbW teamW
    ∧ (submitAll encW dbW teamW ["wrong", "also-wrong"]).submissions = dbW.submissions :=
  submit_attempt_incorrect_no_effect encW dbW teamW ⟨"L1", encW "flag1"⟩
    ["wrong", "also-wrong"] (by decide) (by decide) (by decide)

/-- C3: for a non-empty team whose next level exists, a correct attempt
inserts exactly one `Submission` row for (team, level) and returns
`true`; `next_level_index` grows by exactly 1, and if that level was the
last one, `can_submit` becomes false and `next_level` becomes `None`
(scenario B). -/
theorem submit_attempt_correct_advances (enc : String → String) (db : DB)
    (t : Team) (lvl : Lvl) (a : String)
    (he : is_empty db t = false)
    (hl : next_level db t = some lvl)
    (hc : is_correct enc lvl a = true) :
    submit_attempt enc db t a =
      .ok (true, { db with submissions := db.submissions ++ [(t.id, lvl.name)] })
    ∧ next_level_index { db with submissions := db.submissions ++ [(t.id, lvl.name)] } t
        = next_level_index db t + 1
    ∧ (next_level_index db t + 1 = db.levels.length →
        can_submit { db with submissions := db.submissions ++ [(t.id, lvl.name)] } t = false
        ∧ next_level { db with submissions := db.submissions ++ [(t.id, lvl.name)] } t = none) := by
  have hcs : can_submit db t = true := by
    simp [can_submit, he, hl]
  have hidx : next_level_index { db with submissions := db.submissions ++ [(t.id, lvl.name)] } t
      = next_level_index db t + 1 := by
    simp [next_level_index, List.filter_append]
  refine ⟨?_, hidx, ?_⟩
  · rw [submit_attempt_eq_of_can enc db t a lvl hcs hl]
    simp [hc]
  · intro hlast
    have hnone : next_level { db with submissions := db.submissions ++ [(t.id, lvl.name)] } t = none := by
      simp only [next_level, hidx]
      simp [hlast]
    exact ⟨by simp [can_submit, hnone], hnone⟩

/-- The level of scenario B. -/
def lvlW : Lvl := ⟨"L1", encW "flag1"⟩

/-- Witness for C3: submitting "flag1" in scenario B records the
submission, bumps the index to 1, and exhausts the levels. -/
theorem submit_attempt_correct_advances_witness :
    submit_attempt encW dbW teamW "flag1" =
      .ok (true, { dbW with submissions := dbW.submissions ++ [(teamW.id, lvlW.name)] })
    ∧ next_level_index { dbW with submissions := dbW.submissions ++ [(teamW.id, lvlW.name)] } teamW
        = next_level_index dbW teamW + 1
    ∧ (next_level_index dbW teamW + 1 = dbW.levels.length →
        can_submit { dbW with submissions := dbW.submissions ++ [(teamW.id, lvlW.name)] } teamW = false
        ∧ next_level { dbW with submissions := dbW.submissions ++ [(teamW.id, lvlW.name)] } teamW = none) :=
  submit_attempt_correct_advances encW dbW teamW lvlW "flag1"
    (by decide) (by decide) (by decide)

lemma add_member_ok_count_le {db db' : DB} {t' : Team} (t : Team) (u : Nat)
    (hok : add_member db t u = .ok db')
    (hle : memberCount db t' ≤ MAX_MEMBERS_PER_TEAM) :
    memberCount db' t' ≤ MAX_MEMBERS_PER_TEAM := by
  simp only [add_member] at hok
  split_ifs at hok with h1 h2
  cases hok
  have hacc : memberCount db t < MAX_MEMBERS_PER_TEAM := by
    simpa [is_accepting_members] using h1
  by_cases hid : t.id = t'.id
  · have : memberCount db t' < MAX_MEMBERS_PER_TEAM := by
      rw [← memberCount_eq_of_id hid]
      exact hacc
    simp only [memberCount, List.filter_append] at *
    simp [hid]
    omega
  · simp only [memberCount, List.filter_append]
    have : List.filter (fun r => r.1 == t'.id) [(t.id, u)] = [] := by
      simp [hid]
    rw [this]
    simpa [memberCount] using hle

lemma addAll_count_le (t' : Team) :
    ∀ (reqs : List (Team × Nat)) (db : DB),
      memberCount db t' ≤ MAX_MEMBERS_PER_TEAM →
      memberCount (addAll db reqs) t' ≤ MAX_MEMBERS_PER_TEAM := by
  intro reqs
  induction reqs with
  | nil => intro db h; exact h
  | cons r rest ih =>
    intro db h
    obtain ⟨t, u⟩ := r
    cases hres : add_member db t u with
    | ok db' =>
      simp only [addAll, hres]
      exact ih db' (add_member_ok_count_le t u hres h)
    | error e =>
      simp only [addAll, hres]
      exact ih db h

/-- C1: the capacity invariant.  On a full team `add_member` raises the
capacity `ValueError` whose message carries the team's name and inserts
nothing; on a non-full team (for a user on no team) the insert proceeds;
a successful `add_member` preserves `memberCount ≤ MAX_MEMBERS_PER_TEAM`
for every team, and hence after any sequence of `add_member` calls the
bound still holds. -/
theorem add_member_capacity_invariant (db : DB) (t : Team) (u : Nat) :
    (¬ memberCount db t < MAX_MEMBERS_PER_TEAM →
        add_member db t u = .error (.valueError (capacityMsg t.name)))
    ∧ (memberCount db t < MAX_MEMBERS_PER_TEAM → userHasTeam db u = false →
        add_member db t u = .ok { db with members := db.members ++ [(t.id, u)] })
    ∧ (memberCount db t < MAX_MEMBERS_PER_TEAM →
        add_member db t u ≠ .error (.valueError (capacityMsg t.name)))
    ∧ (∀ db', add_member db t u = .ok db' →
        ∀ t', memberCount db t' ≤ MAX_MEMBERS_PER_TEAM →
          memberCount db' t' ≤ MAX_MEMBERS_PER_TEAM)
    ∧ (∀ reqs, memberCount db t ≤ MAX_MEMBERS_PER_TEAM →
        memberCount (addAll db reqs) t ≤ MAX_MEMBERS_PER_TEAM) := by
  refine ⟨?_, ?_, ?_, ?_, ?_⟩
  · intro h
    simp [add_member, is_accepting_members, h]
  · intro h1 h2
    simp [add_member, is_accepting_members, h1, h2]
  · intro h1
    by_cases h2 : userHasTeam db u = true
    · simp [add_member, is_accepting_members, h1, h2]
    · simp [add_member, is_accepting_members, h1, h2]
  · intro db' hok t' hle
    exact add_member_ok_count_le t u hok hle
  · intro reqs h
    exact addAll_count_le t reqs db h

/-- Witness for C1: the full team rejects user 9 by name; scenario B's
team accepts user 101; flooding scenario B's team with five join
requests still leaves at most 4 members. -/
theorem add_member_capacity_invariant_witness :
    (add_member dbFullW teamW 9 = .error (.valueError (capacityMsg teamW.name)))
    ∧ (add_member dbW teamW 101 = .ok { dbW with members := dbW.members ++ [(teamW.id, 101)] })
    ∧ (memberCount (addAll dbW [(teamW, 101), (teamW, 102), (teamW, 103), (teamW, 104), (teamW, 105)]) teamW
        ≤ MAX_MEMBERS_PER_TEAM) :=
  ⟨(add_member_capacity_invariant dbFullW teamW 9).1 (by decide),
   (add_member_capacity_invariant dbW teamW 101).2.1 (by decide) (by decide),
   (add_member_capacity_invariant dbW teamW 101).2.2.2.2
     [(teamW, 101), (teamW, 102), (teamW, 103), (teamW, 104), (teamW, 105)] (by decide)⟩

/-- C7: each user belongs to at most one team.  When the team has room,
`add_member` for a user who already has a `TeamMember` row anywhere
(including this team) fails with the `uk_user` uniqueness violation
raised at the insert; and under the at-most-one-row invariant
`find_team` returns the unique team of the user, or `None` for a user
on no team. -/
theorem user_on_at_most_one_team (db : DB) (t : Team) (u : Nat) :
    (memberCount db t < MAX_MEMBERS_PER_TEAM → userHasTeam db u = true →
        add_member db t u = .error (.integrityError "uk_user"))
    ∧ ((db.members.filter (fun r => r.2 == u)).length ≤ 1 →
        (userHasTeam db u = false → find_team db u = .ok none)
        ∧ (∀ tid, (tid, u) ∈ db.members → find_team db u = .ok (some tid))) := by
  constructor
  · intro h1 h2
    simp [add_member, is_accepting_members, h1, h2]
  · intro hinv
    constructor
    · intro hno
      have hnil : db.members.filter (fun r => r.2 == u) = [] := by
        rw [List.filter_eq_nil_iff]
        intro r hr
        simp only [userHasTeam, List.any_eq_false] at hno
        simpa using hno r hr
      simp [find_team, hnil]
    · intro tid hmem
      have hx : ((tid, u) : Nat × Nat) ∈ db.members.filter (fun r => r.2 == u) := by
        rw [List.mem_filter]
        exact ⟨hmem, by simp⟩
      have hsingle := mem_of_singleton_le hinv hx
      simp [find_team, hsingle]

/-- Witness for C7: user 9 is on team 1, so joining team 0 (which has
room) hits `uk_user`; `find_team` finds team 1 for user 9 and `None`
for user 7. -/
theorem user_on_at_most_one_team_witness :
    (add_member ⟨[teamW, ⟨1, "U"⟩], [(1, 9)], [], []⟩ teamW 9
        = .error (.integrityError "uk_user"))
    ∧ (find_team ⟨[teamW, ⟨1, "U"⟩], [(1, 9)], [], []⟩ 9 = .ok (some 1))
    ∧ (find_team ⟨[teamW, ⟨1, "U"⟩], [(1, 9)], [], []⟩ 7 = .ok none) :=
  ⟨(user_on_at_most_one_team ⟨[teamW, ⟨1, "U"⟩], [(1, 9)], [], []⟩ teamW 9).1
      (by decide) (by decide),
   ((user_on_at_most_one_team ⟨[teamW, ⟨1, "U"⟩], [(1, 9)], [], []⟩ teamW 9).2
      (by decide)).2 1 (by decide),
   ((user_on_at_most_one_team ⟨[teamW, ⟨1, "U"⟩], [(1, 9)], [], []⟩ teamW 7).2
      (by decide)).1 (by decide)⟩

/-- C8: `remove_member` deletes the `(team, user)` membership row if
present and is a no-op on membership (never an error) if absent; it
never touches levels; when the removal leaves the team empty the team
row is deleted and its submissions cascade away; when members remain,
teams and submissions are untouched. -/
theorem remove_member_frame (db : DB) (t : Team) (u : Nat) :
    ((t.id, u) ∉ (remove_member db t u).members)
    ∧ (remove_member db t u).members
        = db.members.filter (fun r => ¬ (r.1 == t.id ∧ r.2 == u))
    ∧ ((t.id, u) ∉ db.members → (remove_member db t u).members = db.members)
    ∧ (remove_member db t u).levels = db.levels
    ∧ (memberCount { db with members := db.members.filter (fun r => ¬ (r.1 == t.id ∧ r.2 == u)) } t = 0 →
        (remove_member db t u).teams = db.teams.filter (fun x => ¬ x.id == t.id)
        ∧ (remove_member db t u).submissions = db.submissions.filter (fun s => ¬ s.1 == t.id))
    ∧ (memberCount { db with members := db.members.filter (fun r => ¬ (r.1 == t.id ∧ r.2 == u)) } t ≠ 0 →
        (remove_member db t u).teams = db.teams
        ∧ (remove_member db t u).submissions = db.submissions) := by
  by_cases hc : memberCount { db with members := db.members.filter (fun r => ¬ (r.1 == t.id ∧ r.2 == u)) } t = 0
  · have hfix : (db.members.filter (fun r => ¬ (r.1 == t.id ∧ r.2 == u))).filter
        (fun r => ¬ r.1 == t.id) = db.members.filter (fun r => ¬ (r.1 == t.id ∧ r.2 == u)) := by
      refine filter_not_of_none_match _ _ ?_
      simpa [memberCount] using hc
    have hrm : remove_member db t u =
        ⟨db.teams.filter (fun x => ¬ x.id == t.id),
         db.members.filter (fun r => ¬ (r.1 == t.id ∧ r.2 == u)),
         db.levels,
         db.submissions.filter (fun s => ¬ s.1 == t.id)⟩ := by
      simp only [remove_member]
      split
      · rw [hfix]
      · rename_i hf
        refine absurd ?_ hf
        simp only [is_empty]
        rw [hc]
        rfl
    refine ⟨?_, ?_, ?_, ?_, ?_, ?_⟩
    · rw [hrm]
      simp
    · rw [hrm]
    · intro habs
      rw [hrm]
      simp only
      rw [List.filter_eq_self]
      intro r hr
      by_cases h1 : r.1 = t.id
      · by_cases h2 : r.2 = u
        · exact absurd (by rw [← h1, ← h2]; exact hr) habs
        · simp [h2]
      · simp [h1]
    · rw [hrm]
    · intro _
      rw [hrm]
      exact ⟨rfl, rfl⟩
    · intro hne
      exact absurd hc hne
  · have hrm : remove_member db t u =
        { db with members := db.members.filter (fun r => ¬ (r.1 == t.id ∧ r.2 == u)) } := by
      simp only [remove_member]
      split
      · rename_i ht
        simp only [is_empty] at ht
        rw [beq_iff_eq] at ht
        exact absurd ht hc
      · rfl
    refine ⟨?_, ?_, ?_, ?_, ?_, ?_⟩
    · rw [hrm]
      simp
    · rw [hrm]
    · intro habs
      rw [hrm]
      simp only
      rw [List.filter_eq_self]
      intro r hr
      by_cases h1 : r.1 = t.id
      · by_cases h2 : r.2 = u
        · exact absurd (by rw [← h1, ← h2]; exact hr) habs
        · simp [h2]
      · simp [h1]
    · rw [hrm]
    · intro heq
      exact absurd heq hc
    · intro _
      rw [hrm]
      exact ⟨rfl, rfl⟩

/-- Witness for C8 at a concrete database: removing user 1 from a
two-member team deletes exactly that row and keeps the team, its other
member and its submission. -/
theorem remove_member_frame_witness :
    ((teamW.id, 1) ∉ (remove_member ⟨[teamW], [(0, 1), (0, 2)], [], [(0, "L1")]⟩ teamW 1).members)
    ∧ ((remove_member ⟨[teamW], [(0, 1), (0, 2)], [], [(0, "L1")]⟩ teamW 1).teams = [teamW]
        ∧ (remove_member ⟨[teamW], [(0, 1), (0, 2)], [], [(0, "L1")]⟩ teamW 1).submissions
            = [(0, "L1")]) := by
  have h := remove_member_frame ⟨[teamW], [(0, 1), (0, 2)], [], [(0, "L1")]⟩ teamW 1
  exact ⟨h.1, h.2.2.2.2.2 (by decide)⟩

/-- C2 counterexample: `remove_member` on a team's last member deletes
the team and cascades its `Submission` rows, so `next_level_index` for
that team drops from 1 to 0 — an operation of the model does remove
Submissions, refuting unconditional monotonicity. -/
theorem next_level_index_drops_on_team_delete :
    next_level_index (remove_member dbSubW teamW 1) teamW < next_level_index dbSubW teamW
    ∧ (remove_member dbSubW teamW 1).submissions = []
    ∧ dbSubW.submissions = [(0, "L1")] := by
  decide

/-- C2 amended: `next_level_index` is by definition the count of the
team's `Submission` rows, and no operation removes or rewrites a
`Submission` except the team deletion inside `remove_member` (whose
cascade drops the deleted team's rows): successful `add_member` and
`create_level` preserve the index exactly, `submit_attempt` never
decreases it, and `remove_member` preserves it for every team other
than a deleted one. -/
theorem next_level_index_conservation (enc : String → String) (db : DB)
    (t t' : Team) (u : Nat) (a nm d : String) :
    (next_level_index db t = (db.submissions.filter (fun s => s.1 == t.id)).length)
    ∧ (∀ db', add_member db t' u = .ok db' → next_level_index db' t = next_level_index db t)
    ∧ (∀ db', create_level db nm d = .ok db' → next_level_index db' t = next_level_index db t)
    ∧ (∀ b db', submit_attempt enc db t' a = .ok (b, db') →
        next_level_index db t ≤ next_level_index db' t)
    ∧ (t.id ≠ t'.id ∨
        memberCount { db with members := db.members.filter (fun r => ¬ (r.1 == t'.id ∧ r.2 == u)) } t' ≠ 0 →
        next_level_index (remove_member db t' u) t = next_level_index db t) := by
  refine ⟨rfl, ?_, ?_, ?_, ?_⟩
  · intro db' hok
    simp only [add_member] at hok
    split_ifs at hok
    cases hok
    rfl
  · intro db' hok
    simp only [create_level] at hok
    split_ifs at hok
    cases hok
    rfl
  · intro b db' hok
    cases hcs : can_submit db t' with
    | false =>
      simp only [submit_attempt, hcs] at hok
      simp at hok
    | true =>
      cases hnl : next_level db t' with
      | none =>
        simp only [submit_attempt, hcs, hnl] at hok
        simp at hok
      | some lvl =>
        rw [submit_attempt_eq_of_can enc db t' a lvl hcs hnl] at hok
        split_ifs at hok
        · cases hok
          have hsum : next_level_index
              { db with submissions := db.submissions ++ [(t'.id, lvl.name)] } t
              = next_level_index db t
                + (List.filter (fun s => s.1 == t.id) [((t'.id : Nat), lvl.name)]).length := by
            simp [next_level_index, List.filter_append]
          rw [hsum]
          exact Nat.le_add_right _ _
        · cases hok
          exact Nat.le_refl _
  · intro hcond
    simp only [remove_member]
    split
    · rename_i hemp
      rcases hcond with hne | hnonempty
      · simp only [next_level_index]
        rw [List.filter_filter]
        congr 1
        apply List.filter_congr
        intro s hs
        by_cases h1 : s.1 = t.id
        · have : (s.1 == t'.id) = false := by
            simp [h1]
            omega
          simp [h1, this, hne]
        · simp [h1]
      · simp only [is_empty] at hemp
        rw [beq_iff_eq] at hemp
        exact absurd hemp hnonempty
    · rfl

/-- A second team fixture, distinct from `teamW`. -/
def teamZW : Team := ⟨7, "Z"⟩

/-- Witness for C2 amended: adding a member to the team of `dbSubW`
keeps its index at its old value, and `remove_member` on `teamW` keeps
the index of the other team `teamZW`. -/
theorem next_level_index_conservation_witness :
    (next_level_index ⟨[teamW], [(0, 1), (0, 2)], [⟨"L1", "x"⟩], [(0, "L1")]⟩ teamW
        = next_level_index dbSubW teamW)
    ∧ (next_level_index (remove_member dbSubW teamW 9) teamZW
        = next_level_index dbSubW teamZW) :=
  ⟨(next_level_index_conservation encW dbSubW teamW teamW 2 "x" "n" "d").2.1
      ⟨[teamW], [(0, 1), (0, 2)], [⟨"L1", "x"⟩], [(0, "L1")]⟩ (by rfl),
   (next_level_index_conservation encW dbSubW teamZW teamW 9 "x" "n" "d").2.2.2.2
      (Or.inl (by decide))⟩

end Leaderboard
